import Mathlib

/-!
Shallow embedding of the `ring_buff` repository: a fixed-capacity circular
byte buffer (`src/ring_buffer.c`) together with its lockfree, disable-irq
and mutex strategy operation tables (`src/ring_buffer_lockfree.c`,
`src/ring_buffer_disable_irq.c`, `src/ring_buffer_mutex.c`).

Machine integers: every field of `ring_buffer_t` involved here is a
`uint16_t`; in C the arithmetic in these functions is performed after
integer promotion to `int`, and under the data-model invariants
(`head, tail < size ≤ 65535`) every intermediate value stays far below
either overflow bound, so plain `Nat` arithmetic is a faithful model.
Truncated `Nat` subtraction coincides with the C computation in every
subtraction the code performs because the minuend is never smaller than
the subtrahend on the paths where results are used (shown in the proofs).

The storage region `rb->buffer` is modelled as a `List Nat` of length
`rb->size`; `memcpy` into the region becomes `copyInto`.
-/

namespace RingBuff

/-- State of a `ring_buffer_t`: storage contents, `size`, `head` (write
index) and `tail` (read index).  The `lock` handle of the mutex strategy
is modelled separately (`MRB`). -/
structure RB where
  buf  : List Nat
  size : Nat
  head : Nat
  tail : Nat
deriving Repr, DecidableEq

/-- Data-model invariants of the spec: `size ≥ 2`, both indices in
`[0, size)`, and the storage region has exactly `size` slots. -/
def RB.valid (rb : RB) : Prop :=
  2 ≤ rb.size ∧ rb.head < rb.size ∧ rb.tail < rb.size ∧ rb.buf.length = rb.size

instance (rb : RB) : Decidable rb.valid := by
  unfold RB.valid; infer_instance

/-- Model of `memcpy(&buf[pos], src, src.length)`: overwrite `buf`
starting at `pos` with the bytes of `src`. -/
def copyInto (buf : List Nat) (pos : Nat) (src : List Nat) : List Nat :=
  buf.take pos ++ src ++ buf.drop (pos + src.length)

/-! Core implementation, `src/ring_buffer.c`.  The `rb == NULL` /
`data == NULL` branches of the C code concern pointers that do not exist
in the state model; where a claim is about a NULL buffer pointer, a
wrapper over `Option RB` reproduces that branch (`ring_buffer_is_empty_p`
below).  The remaining parameter checks (`rb->size < 2`; the code also
tests `rb->buffer == NULL`, which has no counterpart for a list-valued
field) are kept as written. -/

/-- ring_buffer_available, src/ring_buffer.c lines 105-124. -/
def ring_buffer_available (rb : RB) : Nat :=
  if rb.size < 2 then 0
  else if rb.head ≥ rb.tail then rb.head - rb.tail
  else rb.size - rb.tail + rb.head

/-- ring_buffer_free_space, src/ring_buffer.c lines 132-142. -/
def ring_buffer_free_space (rb : RB) : Nat :=
  if rb.size < 2 then 0
  else rb.size - ring_buffer_available rb - 1

/-- ring_buffer_write, src/ring_buffer.c lines 53-72.  Returns the new
state and the `bool` result. -/
def ring_buffer_write (rb : RB) (data : Nat) : RB × Bool :=
  if rb.size < 2 then (rb, false)
  else
    let next_head := (rb.head + 1) % rb.size
    if next_head = rb.tail then (rb, false)
    else ({ rb with buf := copyInto rb.buf rb.head [data], head := next_head }, true)

/-- ring_buffer_read, src/ring_buffer.c lines 80-97.  The byte stored
through the `data` out-pointer becomes the `Option Nat` component. -/
def ring_buffer_read (rb : RB) : RB × Option Nat :=
  if rb.size < 2 then (rb, none)
  else if rb.head = rb.tail then (rb, none)
  else ({ rb with tail := (rb.tail + 1) % rb.size }, some (rb.buf.getD rb.tail 0))

/-- ring_buffer_write_multi, src/ring_buffer.c lines 158-210.  `data` is
the source region (the C code reads `to_write` bytes from it) and `len`
the requested length; result is the new state and the returned count. -/
def ring_buffer_write_multi (rb : RB) (data : List Nat) (len : Nat) : RB × Nat :=
  if rb.size < 2 then (rb, 0)
  else if len = 0 then (rb, 0)
  else
    let free := ring_buffer_free_space rb
    if free = 0 then (rb, 0)
    else
      let to_write := if len > free then free else len
      let head := rb.head
      let tail := rb.tail
      let size := rb.size
      if head ≥ tail then
        let part1 := size - head
        if to_write ≤ part1 then
          ({ rb with buf := copyInto rb.buf head (data.take to_write),
                     head := (head + to_write) % size }, to_write)
        else
          ({ rb with buf := copyInto (copyInto rb.buf head (data.take part1)) 0
                              ((data.drop part1).take (to_write - part1)),
                     head := to_write - part1 }, to_write)
      else
        ({ rb with buf := copyInto rb.buf head (data.take to_write),
                   head := head + to_write }, to_write)

/-- ring_buffer_read_multi, src/ring_buffer.c lines 226-276.  The bytes
copied to the destination become the `List Nat` component (the C return
value is its length). -/
def ring_buffer_read_multi (rb : RB) (len : Nat) : RB × List Nat :=
  if rb.size < 2 then (rb, [])
  else if len = 0 then (rb, [])
  else
    let avail := ring_buffer_available rb
    if avail = 0 then (rb, [])
    else
      let to_read := if len > avail then avail else len
      let tail := rb.tail
      let size := rb.size
      if tail < rb.head then
        ({ rb with tail := tail + to_read }, (rb.buf.drop tail).take to_read)
      else
        let part1 := size - tail
        if to_read ≤ part1 then
          ({ rb with tail := (tail + to_read) % size }, (rb.buf.drop tail).take to_read)
        else
          ({ rb with tail := to_read - part1 },
           (rb.buf.drop tail).take part1 ++ rb.buf.take (to_read - part1))

/-- ring_buffer_is_empty, src/ring_buffer.c lines 283-292 (the non-NULL
case; the NULL branch is `ring_buffer_is_empty_p`). -/
def ring_buffer_is_empty (rb : RB) : Bool :=
  rb.head == rb.tail

/-- ring_buffer_is_full, src/ring_buffer.c lines 299-310 (non-NULL case). -/
def ring_buffer_is_full (rb : RB) : Bool :=
  if rb.size < 2 then false
  else (rb.head + 1) % rb.size == rb.tail

/-- ring_buffer_clear, src/ring_buffer.c lines 316-326: resets both
indices to zero. -/
def ring_buffer_clear (rb : RB) : RB :=
  { rb with head := 0, tail := 0 }

/-- ring_buffer_is_empty including its `rb == NULL` branch (`none`
models a NULL buffer pointer). -/
def ring_buffer_is_empty_p (orb : Option RB) : Bool :=
  match orb with
  | none => true
  | some rb => ring_buffer_is_empty rb

/-- ring_buffer_is_full including its `rb == NULL` branch. -/
def ring_buffer_is_full_p (orb : Option RB) : Bool :=
  match orb with
  | none => false
  | some rb => ring_buffer_is_full rb

/-- ring_buffer_init, src/ring_buffer.c lines 31-45: `none` for the
NULL-storage argument; on success the returned structure is the
initialized `ring_buffer_t`. -/
def ring_buffer_init (storage : Option (List Nat)) (size : Nat) : Option RB :=
  match storage with
  | none => none
  | some buf => if size < 2 then none else some ⟨buf, size, 0, 0⟩

/-! Lockfree strategy, `src/ring_buffer_lockfree.c`.  Unlike the core
above, these functions perform no `size < 2` check; the `!rb` /
`!data` branches again concern pointer nullity absent from the model. -/

/-- lockfree_available_internal, src/ring_buffer_lockfree.c lines 33-45. -/
def lockfree_available (rb : RB) : Nat :=
  if rb.head ≥ rb.tail then rb.head - rb.tail
  else rb.size - rb.tail + rb.head

/-- lockfree_free_space_internal, src/ring_buffer_lockfree.c lines 50-53. -/
def lockfree_free_space (rb : RB) : Nat :=
  rb.size - 1 - lockfree_available rb

/-- lockfree_write, src/ring_buffer_lockfree.c lines 60-79. -/
def lockfree_write (rb : RB) (data : Nat) : RB × Bool :=
  let next_head := (rb.head + 1) % rb.size
  if next_head = rb.tail then (rb, false)
  else ({ rb with buf := copyInto rb.buf rb.head [data], head := next_head }, true)

/-- lockfree_read, src/ring_buffer_lockfree.c lines 84-101. -/
def lockfree_read (rb : RB) : RB × Option Nat :=
  if rb.tail = rb.head then (rb, none)
  else ({ rb with tail := (rb.tail + 1) % rb.size }, some (rb.buf.getD rb.tail 0))

/-- lockfree_write_multi, src/ring_buffer_lockfree.c lines 106-137. -/
def lockfree_write_multi (rb : RB) (data : List Nat) (len : Nat) : RB × Nat :=
  if len = 0 then (rb, 0)
  else
    let free := lockfree_free_space rb
    let to_write := if len > free then free else len
    if to_write = 0 then (rb, 0)
    else
      let head := rb.head
      let size := rb.size
      if head + to_write ≤ size then
        ({ rb with buf := copyInto rb.buf head (data.take to_write),
                   head := (head + to_write) % size }, to_write)
      else
        let first_chunk := size - head
        ({ rb with buf := copyInto (copyInto rb.buf head (data.take first_chunk)) 0
                            ((data.drop first_chunk).take (to_write - first_chunk)),
                   head := to_write - first_chunk }, to_write)

/-- lockfree_read_multi, src/ring_buffer_lockfree.c lines 142-173. -/
def lockfree_read_multi (rb : RB) (len : Nat) : RB × List Nat :=
  if len = 0 then (rb, [])
  else
    let available := lockfree_available rb
    let to_read := if len > available then available else len
    if to_read = 0 then (rb, [])
    else
      let tail := rb.tail
      let size := rb.size
      if tail + to_read ≤ size then
        ({ rb with tail := (tail + to_read) % size }, (rb.buf.drop tail).take to_read)
      else
        let first_chunk := size - tail
        ({ rb with tail := to_read - first_chunk },
         (rb.buf.drop tail).take first_chunk ++ rb.buf.take (to_read - first_chunk))

/-- lockfree_is_empty, src/ring_buffer_lockfree.c lines 196-200
(non-NULL case). -/
def lockfree_is_empty (rb : RB) : Bool :=
  rb.head == rb.tail

/-- lockfree_is_full, src/ring_buffer_lockfree.c lines 205-209
(non-NULL case). -/
def lockfree_is_full (rb : RB) : Bool :=
  (rb.head + 1) % rb.size == rb.tail

/-- lockfree_clear, src/ring_buffer_lockfree.c lines 214-218: resets
only the read index. -/
def lockfree_clear (rb : RB) : RB :=
  { rb with tail := rb.head }

/-! Disable-irq strategy, `src/ring_buffer_disable_irq.c`.  Each
function brackets a delegated lockfree call with IRQ_SAVE / IRQ_RESTORE;
executed sequentially (no interrupt arrives inside the bracket) the
guard has no effect on the buffer state, so it is the identity here.
The own parameter checks of each wrapper are kept as written. -/

/-- disable_irq_write, src/ring_buffer_disable_irq.c lines 79-91. -/
def disable_irq_write (rb : RB) (data : Nat) : RB × Bool :=
  lockfree_write rb data

/-- disable_irq_read, src/ring_buffer_disable_irq.c lines 96-107. -/
def disable_irq_read (rb : RB) : RB × Option Nat :=
  lockfree_read rb

/-- disable_irq_write_multi, src/ring_buffer_disable_irq.c lines 112-123. -/
def disable_irq_write_multi (rb : RB) (data : List Nat) (len : Nat) : RB × Nat :=
  if len = 0 then (rb, 0)
  else lockfree_write_multi rb data len

/-- disable_irq_read_multi, src/ring_buffer_disable_irq.c lines 128-139. -/
def disable_irq_read_multi (rb : RB) (len : Nat) : RB × List Nat :=
  if len = 0 then (rb, [])
  else lockfree_read_multi rb len

/-- disable_irq_available, src/ring_buffer_disable_irq.c lines 147-158. -/
def disable_irq_available (rb : RB) : Nat :=
  lockfree_available rb

/-- disable_irq_free_space, src/ring_buffer_disable_irq.c lines 163-174. -/
def disable_irq_free_space (rb : RB) : Nat :=
  lockfree_free_space rb

/-- disable_irq_is_empty, src/ring_buffer_disable_irq.c lines 179-190. -/
def disable_irq_is_empty (rb : RB) : Bool :=
  lockfree_is_empty rb

/-- disable_irq_is_full, src/ring_buffer_disable_irq.c lines 195-206. -/
def disable_irq_is_full (rb : RB) : Bool :=
  lockfree_is_full rb

/-- disable_irq_clear, src/ring_buffer_disable_irq.c lines 211-221. -/
def disable_irq_clear (rb : RB) : RB :=
  lockfree_clear rb

/-! Mutex strategy, `src/ring_buffer_mutex.c`.  The buffer carries a
lock handle (`rb->lock`, a `void*`): `none` models a NULL handle, and
every operation first tests it.  MUTEX_LOCK / MUTEX_UNLOCK around the
delegated lockfree call serialize access; executed sequentially they do
not change the buffer state, so they are the identity here. -/

/-- A `ring_buffer_t` under the mutex strategy: buffer state plus the
`lock` handle field. -/
structure MRB where
  rb   : RB
  lock : Option Unit
deriving Repr, DecidableEq

/-- mutex_write, src/ring_buffer_mutex.c lines 132-143. -/
def mutex_write (m : MRB) (data : Nat) : MRB × Bool :=
  match m.lock with
  | none => (m, false)
  | some _ =>
    let r := lockfree_write m.rb data
    ({ m with rb := r.1 }, r.2)

/-- mutex_read, src/ring_buffer_mutex.c lines 148-159. -/
def mutex_read (m : MRB) : MRB × Option Nat :=
  match m.lock with
  | none => (m, none)
  | some _ =>
    let r := lockfree_read m.rb
    ({ m with rb := r.1 }, r.2)

/-- mutex_write_multi, src/ring_buffer_mutex.c lines 164-175. -/
def mutex_write_multi (m : MRB) (data : List Nat) (len : Nat) : MRB × Nat :=
  if len = 0 then (m, 0)
  else
    match m.lock with
    | none => (m, 0)
    | some _ =>
      let r := lockfree_write_multi m.rb data len
      ({ m with rb := r.1 }, r.2)

/-- mutex_read_multi, src/ring_buffer_mutex.c lines 180-191. -/
def mutex_read_multi (m : MRB) (len : Nat) : MRB × List Nat :=
  if len = 0 then (m, [])
  else
    match m.lock with
    | none => (m, [])
    | some _ =>
      let r := lockfree_read_multi m.rb len
      ({ m with rb := r.1 }, r.2)

/-- mutex_available, src/ring_buffer_mutex.c lines 196-207. -/
def mutex_available (m : MRB) : Nat :=
  match m.lock with
  | none => 0
  | some _ => lockfree_available m.rb

/-- mutex_free_space, src/ring_buffer_mutex.c lines 212-223. -/
def mutex_free_space (m : MRB) : Nat :=
  match m.lock with
  | none => 0
  | some _ => lockfree_free_space m.rb

/-- mutex_is_empty, src/ring_buffer_mutex.c lines 228-239. -/
def mutex_is_empty (m : MRB) : Bool :=
  match m.lock with
  | none => true
  | some _ => lockfree_is_empty m.rb

/-- mutex_is_full, src/ring_buffer_mutex.c lines 244-255. -/
def mutex_is_full (m : MRB) : Bool :=
  match m.lock with
  | none => false
  | some _ => lockfree_is_full m.rb

/-- mutex_clear, src/ring_buffer_mutex.c lines 260-270. -/
def mutex_clear (m : MRB) : MRB :=
  match m.lock with
  | none => m
  | some _ => { m with rb := lockfree_clear m.rb }

/-! The nine-operation surface of a strategy table
(`struct ring_buffer_ops`, src/ring_buffer.h lines 81-91, minus `init`
which is not part of the per-strategy tables under comparison), as an
inductive of invocations with their arguments, plus a uniform result
type. -/

/-- One invocation of a strategy-table operation with its arguments. -/
inductive RBOp where
  | write (data : Nat)
  | read
  | writeMulti (data : List Nat) (len : Nat)
  | readMulti (len : Nat)
  | available
  | freeSpace
  | isEmpty
  | isFull
  | clear
deriving Repr, DecidableEq

/-- Observable result of one strategy-table operation. -/
inductive RBOut where
  | flag (x : Bool)
  | count (x : Nat)
  | bytes (x : List Nat)
  | byte (x : Option Nat)
  | unit
deriving Repr, DecidableEq

/-- Dispatch one operation through `ring_buffer_lockfree_ops`
(src/ring_buffer_lockfree.c lines 225-235). -/
def stepLockfree : RBOp → RB → RB × RBOut
  | .write d, rb => let r := lockfree_write rb d; (r.1, .flag r.2)
  | .read, rb => let r := lockfree_read rb; (r.1, .byte r.2)
  | .writeMulti d l, rb => let r := lockfree_write_multi rb d l; (r.1, .count r.2)
  | .readMulti l, rb => let r := lockfree_read_multi rb l; (r.1, .bytes r.2)
  | .available, rb => (rb, .count (lockfree_available rb))
  | .freeSpace, rb => (rb, .count (lockfree_free_space rb))
  | .isEmpty, rb => (rb, .flag (lockfree_is_empty rb))
  | .isFull, rb => (rb, .flag (lockfree_is_full rb))
  | .clear, rb => (lockfree_clear rb, .unit)

/-- Dispatch one operation through `ring_buffer_disable_irq_ops`
(src/ring_buffer_disable_irq.c lines 228-238). -/
def stepDisableIrq : RBOp → RB → RB × RBOut
  | .write d, rb => let r := disable_irq_write rb d; (r.1, .flag r.2)
  | .read, rb => let r := disable_irq_read rb; (r.1, .byte r.2)
  | .writeMulti d l, rb => let r := disable_irq_write_multi rb d l; (r.1, .count r.2)
  | .readMulti l, rb => let r := disable_irq_read_multi rb l; (r.1, .bytes r.2)
  | .available, rb => (rb, .count (disable_irq_available rb))
  | .freeSpace, rb => (rb, .count (disable_irq_free_space rb))
  | .isEmpty, rb => (rb, .flag (disable_irq_is_empty rb))
  | .isFull, rb => (rb, .flag (disable_irq_is_full rb))
  | .clear, rb => (disable_irq_clear rb, .unit)

/-- Dispatch one operation through `ring_buffer_mutex_ops`
(src/ring_buffer_mutex.c lines 277-287). -/
def stepMutex : RBOp → MRB → MRB × RBOut
  | .write d, m => let r := mutex_write m d; (r.1, .flag r.2)
  | .read, m => let r := mutex_read m; (r.1, .byte r.2)
  | .writeMulti d l, m => let r := mutex_write_multi m d l; (r.1, .count r.2)
  | .readMulti l, m => let r := mutex_read_multi m l; (r.1, .bytes r.2)
  | .available, m => (m, .count (mutex_available m))
  | .freeSpace, m => (m, .count (mutex_free_space m))
  | .isEmpty, m => (m, .flag (mutex_is_empty m))
  | .isFull, m => (m, .flag (mutex_is_full m))
  | .clear, m => (mutex_clear m, .unit)

/-- Run a sequence of operations through the lockfree table, collecting
the per-step results in order. -/
def runLockfree : List RBOp → RB → RB × List RBOut
  | [], rb => (rb, [])
  | op :: ops, rb =>
    let r := stepLockfree op rb
    let rest := runLockfree ops r.1
    (rest.1, r.2 :: rest.2)

/-- Run a sequence of operations through the disable-irq table. -/
def runDisableIrq : List RBOp → RB → RB × List RBOut
  | [], rb => (rb, [])
  | op :: ops, rb =>
    let r := stepDisableIrq op rb
    let rest := runDisableIrq ops r.1
    (rest.1, r.2 :: rest.2)

/-- Run a sequence of operations through the mutex table. -/
def runMutex : List RBOp → MRB → MRB × List RBOut
  | [], m => (m, [])
  | op :: ops, m =>
    let r := stepMutex op m
    let rest := runMutex ops r.1
    (rest.1, r.2 :: rest.2)

/-! FIFO machinery for the core table: data operations, their executed
trace, and the queue abstraction of a buffer state. -/

/-- The four data-moving core operations of claim C1. -/
inductive DataOp where
  | write (b : Nat)
  | read
  | writeMulti (data : List Nat) (len : Nat)
  | readMulti (len : Nat)
deriving Repr, DecidableEq

/-- Caller contract of the C bulk write: the source region really holds
`len` readable bytes. -/
def DataOp.wfb : DataOp → Bool
  | .writeMulti data len => len ≤ data.length
  | _ => true

/-- Run a sequence of core data operations with the `ring_buffer_ops`
table (src/ring_buffer.c lines 329-340), returning the final state, the
concatenation of all bytes accepted by the writes, and the concatenation
of all bytes delivered by the reads, each in execution order. -/
def runData : List DataOp → RB → RB × List Nat × List Nat
  | [], rb => (rb, [], [])
  | op :: ops, rb =>
    match op with
    | .write b =>
      let r := ring_buffer_write rb b
      let rest := runData ops r.1
      (rest.1, (if r.2 then [b] else []) ++ rest.2.1, rest.2.2)
    | .read =>
      let r := ring_buffer_read rb
      let rest := runData ops r.1
      (rest.1, rest.2.1, r.2.toList ++ rest.2.2)
    | .writeMulti data len =>
      let r := ring_buffer_write_multi rb data len
      let rest := runData ops r.1
      (rest.1, data.take r.2 ++ rest.2.1, rest.2.2)
    | .readMulti len =>
      let r := ring_buffer_read_multi rb len
      let rest := runData ops r.1
      (rest.1, rest.2.1, r.2 ++ rest.2.2)

/-- Queue abstraction of a buffer state: the stored-but-unread bytes in
FIFO order, `buf[tail..head)` in the linear case and
`buf[tail..size) ++ buf[0..head)` in the wrapped case. -/
def RB.contents (rb : RB) : List Nat :=
  if rb.tail ≤ rb.head then (rb.buf.drop rb.tail).take (rb.head - rb.tail)
  else rb.buf.drop rb.tail ++ rb.buf.take rb.head

/-! Storage regions touched by the bulk copies (claim C6): the
`(start, count)` pair of each `memcpy` into or out of `rb->buffer`,
read off the branch structure of the corresponding C function. -/

/-- Destination regions of the memcpy calls inside
ring_buffer_write_multi (src/ring_buffer.c lines 184-207). -/
def writeMultiRegions (rb : RB) (len : Nat) : List (Nat × Nat) :=
  if rb.size < 2 then []
  else if len = 0 then []
  else
    let free := ring_buffer_free_space rb
    if free = 0 then []
    else
      let to_write := if len > free then free else len
      if rb.head ≥ rb.tail then
        let part1 := rb.size - rb.head
        if to_write ≤ part1 then [(rb.head, to_write)]
        else [(rb.head, part1), (0, to_write - part1)]
      else [(rb.head, to_write)]

/-- Source regions of the memcpy calls inside ring_buffer_read_multi
(src/ring_buffer.c lines 252-273). -/
def readMultiRegions (rb : RB) (len : Nat) : List (Nat × Nat) :=
  if rb.size < 2 then []
  else if len = 0 then []
  else
    let avail := ring_buffer_available rb
    if avail = 0 then []
    else
      let to_read := if len > avail then avail else len
      if rb.tail < rb.head then [(rb.tail, to_read)]
      else
        let part1 := rb.size - rb.tail
        if to_read ≤ part1 then [(rb.tail, to_read)]
        else [(rb.tail, part1), (0, to_read - part1)]

/-- Destination regions of the memcpy calls inside lockfree_write_multi
(src/ring_buffer_lockfree.c lines 106-137). -/
def lockfreeWriteMultiRegions (rb : RB) (len : Nat) : List (Nat × Nat) :=
  if len = 0 then []
  else
    let free := lockfree_free_space rb
    let to_write := if len > free then free else len
    if to_write = 0 then []
    else if rb.head + to_write ≤ rb.size then [(rb.head, to_write)]
    else
      let first_chunk := rb.size - rb.head
      [(rb.head, first_chunk), (0, to_write - first_chunk)]

/-! Factory construction (claim C9). -/

/-- Strategy tags, `ring_buffer_type_t` (src/ring_buffer.h lines 43-48):
the three built-ins plus custom tags at or above the custom base. -/
inductive ring_buffer_type_t where
  | lockfree
  | disable_irq
  | mutex
  | custom (n : Nat)
deriving Repr, DecidableEq

/-- A successfully constructed buffer: state plus the lock handle the
mutex strategy owns (absent for the other strategies). -/
structure CreatedRB where
  rb : RB
  lock : Option Unit
deriving Repr, DecidableEq

/-- Modelled from the spec: `ring_buffer_create` is declared in
src/ring_buffer.h lines 122-127 but its implementation (the
selector/factory file) is not among the sources.  Spec §4.3: it
validates storage and capacity exactly as construction requires (the
shared-state initialization is `ring_buffer_init`, which is in the
sources and is used here), resets the indices, and then resolves the
strategy tag: built-in tags bind directly to their descriptor, the
mutex tag additionally performs lock creation (`lock_created` models
the external RTOS primitive succeeding) and fails the whole
construction if that fails, and a custom tag is looked up in the
registry (`registry` lists the registered custom tags); an unknown or
unregistered tag fails.  On any failure no operable buffer is
produced (`none`). -/
def ring_buffer_create (storage : Option (List Nat)) (size : Nat)
    (ty : ring_buffer_type_t) (registry : List Nat) (lock_created : Bool) :
    Option CreatedRB :=
  match ring_buffer_init storage size with
  | none => none
  | some rb =>
    match ty with
    | .lockfree => some ⟨rb, none⟩
    | .disable_irq => some ⟨rb, none⟩
    | .mutex => if lock_created then some ⟨rb, some ()⟩ else none
    | .custom n => if n ∈ registry then some ⟨rb, none⟩ else none

end RingBuff

namespace RingBuff

@[simp] theorem RB.buf_mk (B : List Nat) (s h t : Nat) : (RB.mk B s h t).buf = B := rfl

@[simp] theorem RB.size_mk (B : List Nat) (s h t : Nat) : (RB.mk B s h t).size = s := rfl

@[simp] theorem RB.head_mk (B : List Nat) (s h t : Nat) : (RB.mk B s h t).head = h := rfl

@[simp] theorem RB.tail_mk (B : List Nat) (s h t : Nat) : (RB.mk B s h t).tail = t := rfl

theorem copyInto_length (buf src : List Nat) (pos : Nat)
    (h : pos + src.length ≤ buf.length) :
    (copyInto buf pos src).length = buf.length := by
  simp [copyInto]
  omega

theorem contents_length (rb : RB) (hv : rb.valid) :
    rb.contents.length = ring_buffer_available rb := by
  obtain ⟨hs, hh, ht, hb⟩ := hv
  unfold RB.contents ring_buffer_available
  rcases le_or_lt rb.tail rb.head with hle | hlt
  · simp [hle, Nat.not_lt.mpr hs, Nat.le_of_lt, ge_iff_le]
    omega
  · rw [if_neg (by omega), if_neg (by omega), if_neg (by omega)]
    simp
    omega

theorem available_lt (rb : RB) (hv : rb.valid) :
    ring_buffer_available rb < rb.size := by
  obtain ⟨hs, hh, ht, hb⟩ := hv
  unfold ring_buffer_available
  rcases le_or_lt rb.tail rb.head with hle | hlt
  · rw [if_neg (by omega), if_pos (by omega)]; omega
  · rw [if_neg (by omega), if_neg (by omega)]; omega

theorem free_space_eq (rb : RB) (hv : rb.valid) :
    ring_buffer_free_space rb = rb.size - 1 - ring_buffer_available rb := by
  obtain ⟨hs, hh, ht, hb⟩ := hv
  unfold ring_buffer_free_space
  rw [if_neg (by omega)]
  omega

end RingBuff

namespace RingBuff

theorem drop_copyInto (B D : List Nat) (h t : Nat) (hth : t ≤ h) (hhB : h ≤ B.length) :
    (copyInto B h D).drop t = (B.drop t).take (h - t) ++ D ++ B.drop (h + D.length) := by
  unfold copyInto
  rw [List.append_assoc, List.drop_append_eq_append_drop, List.length_take, min_eq_left hhB]
  rw [show t - h = 0 from by omega]
  rw [List.drop_take]
  simp [List.append_assoc]

theorem contents_write_nowrap (B D : List Nat) (s h t : Nat)
    (hb : B.length = s) (hth : t ≤ h) (hhs : h < s) (hts : t < s)
    (hn : h + D.length ≤ s) (hwrap : h + D.length = s → 0 < t) :
    (RB.mk (copyInto B h D) s ((h + D.length) % s) t).contents
      = (RB.mk B s h t).contents ++ D := by
  have hd := drop_copyInto B D h t hth (by omega)
  rcases eq_or_lt_of_le hn with heq | hlt
  · have ht0 : 0 < t := hwrap heq
    have hmod : (h + D.length) % s = 0 := by rw [heq]; exact Nat.mod_self s
    simp only [RB.contents, hmod]
    rw [if_neg (by omega), if_pos hth]
    simp only [List.take_zero, List.append_nil]
    rw [hd, heq, ← hb, List.drop_length, List.append_nil]
  · have hmod : (h + D.length) % s = h + D.length := Nat.mod_eq_of_lt hlt
    simp only [RB.contents, hmod]
    rw [if_pos (by omega), if_pos hth]
    rw [hd]
    have l1 : ((B.drop t).take (h - t)).length = h - t := by
      simp [hb]; omega
    rw [List.append_assoc]
    rw [show h + D.length - t = ((B.drop t).take (h - t)).length + D.length from by
      rw [l1]; omega]
    rw [List.take_append]
    rw [List.take_append_of_le_length (le_refl D.length), List.take_length]

theorem contents_write_mid (B D : List Nat) (s h t : Nat)
    (hb : B.length = s) (hht : h < t) (hts : t < s)
    (hn : h + D.length < t) :
    (RB.mk (copyInto B h D) s (h + D.length) t).contents
      = (RB.mk B s h t).contents ++ D := by
  have hTh : (B.take h).length = h := by rw [List.length_take]; omega
  have hlen1 : (B.take h ++ D).length = h + D.length := by
    rw [List.length_append, hTh]
  have hdrop : (copyInto B h D).drop t = B.drop t := by
    unfold copyInto
    rw [List.drop_append_eq_append_drop, List.drop_append_eq_append_drop]
    rw [List.drop_eq_nil_of_le (show (B.take h).length ≤ t from by rw [hTh]; omega)]
    rw [hTh]
    rw [List.drop_eq_nil_of_le (show D.length ≤ t - h from by omega)]
    rw [List.nil_append, List.nil_append, List.length_append, hTh]
    rw [List.drop_drop]
    congr 1
    omega
  have htake : (copyInto B h D).take (h + D.length) = B.take h ++ D := by
    unfold copyInto
    rw [List.take_append_of_le_length
      (show h + D.length ≤ (B.take h ++ D).length from by rw [hlen1])]
    rw [← hlen1, List.take_length]
  simp only [RB.contents]
  rw [if_neg (by omega), if_neg (by omega)]
  rw [hdrop, htake, List.append_assoc]

theorem contents_write_wrap (B D1 D2 : List Nat) (s h t : Nat)
    (hb : B.length = s) (hth : t ≤ h) (hhs : h < s)
    (hD1 : D1.length = s - h) (hD2 : D2.length < t) :
    (RB.mk (copyInto (copyInto B h D1) 0 D2) s D2.length t).contents
      = (RB.mk B s h t).contents ++ (D1 ++ D2) := by
  have hTh : (B.take h).length = h := by rw [List.length_take]; omega
  have hB1 : copyInto B h D1 = B.take h ++ D1 := by
    unfold copyInto
    rw [hD1, show h + (s - h) = s from by omega, ← hb, List.drop_length,
        List.append_assoc, List.append_nil]
  have hB2 : copyInto (copyInto B h D1) 0 D2 = D2 ++ (B.take h ++ D1).drop D2.length := by
    rw [hB1]
    unfold copyInto
    simp
  simp only [RB.contents]
  rw [if_neg (by omega), if_pos hth]
  rw [hB2]
  have hdrop : (D2 ++ (B.take h ++ D1).drop D2.length).drop t
      = (B.drop t).take (h - t) ++ D1 := by
    rw [List.drop_append_eq_append_drop]
    rw [List.drop_eq_nil_of_le (show D2.length ≤ t from by omega)]
    rw [List.nil_append, List.drop_drop]
    rw [show D2.length + (t - D2.length) = t from by omega]
    rw [List.drop_append_of_le_length (show t ≤ (B.take h).length from by rw [hTh]; omega)]
    rw [List.drop_take]
  have htake : (D2 ++ (B.take h ++ D1).drop D2.length).take D2.length = D2 := by
    rw [List.take_append_of_le_length (le_refl _), List.take_length]
  rw [hdrop, htake]
  simp [List.append_assoc]

theorem contents_read_linear (B : List Nat) (s h t m : Nat)
    (hb : B.length = s) (hth : t ≤ h) (hhs : h < s) (hm : m ≤ h - t) :
    (RB.mk B s h (t + m)).contents = (RB.mk B s h t).contents.drop m ∧
    (B.drop t).take m = (RB.mk B s h t).contents.take m := by
  simp only [RB.contents]
  rw [if_pos (by omega), if_pos hth]
  constructor
  · rw [List.drop_take, List.drop_drop]
    rw [show t + m = m + t from by omega]
    congr 1
    omega
  · rw [List.take_take]
    congr 1
    omega

theorem contents_read_wrap1 (B : List Nat) (s h t m : Nat)
    (hb : B.length = s) (hht : h < t) (hts : t < s) (hm : m ≤ s - t) :
    (RB.mk B s h ((t + m) % s)).contents = (RB.mk B s h t).contents.drop m ∧
    (B.drop t).take m = (RB.mk B s h t).contents.take m := by
  have hlen : (B.drop t).length = s - t := by rw [List.length_drop, hb]
  constructor
  · rcases eq_or_lt_of_le (show t + m ≤ s from by omega) with heq | hlt
    · have hmod : (t + m) % s = 0 := by rw [heq]; exact Nat.mod_self s
      simp only [RB.contents, hmod]
      rw [if_pos (Nat.zero_le h), if_neg (by omega)]
      rw [List.drop_append_eq_append_drop]
      rw [List.drop_eq_nil_of_le (show (B.drop t).length ≤ m from by rw [hlen]; omega)]
      rw [List.nil_append, hlen]
      rw [show m - (s - t) = 0 from by omega]
      simp
    · have hmod : (t + m) % s = t + m := Nat.mod_eq_of_lt hlt
      simp only [RB.contents, hmod]
      rw [if_neg (by omega), if_neg (by omega)]
      rw [List.drop_append_eq_append_drop, hlen]
      rw [show m - (s - t) = 0 from by omega, List.drop_zero, List.drop_drop]
  · simp only [RB.contents]
    rw [if_neg (by omega)]
    rw [List.take_append_of_le_length (show m ≤ (B.drop t).length from by rw [hlen]; omega)]

theorem contents_read_wrap2 (B : List Nat) (s h t m : Nat)
    (hb : B.length = s) (hht : h < t) (hts : t < s)
    (hm1 : s - t < m) (hm2 : m - (s - t) ≤ h) :
    (RB.mk B s h (m - (s - t))).contents = (RB.mk B s h t).contents.drop m ∧
    (B.drop t).take (s - t) ++ B.take (m - (s - t)) = (RB.mk B s h t).contents.take m := by
  have hlen : (B.drop t).length = s - t := by rw [List.length_drop, hb]
  have htk : (B.drop t).take (s - t) = B.drop t := by
    rw [List.take_of_length_le (by rw [hlen])]
  constructor
  · simp only [RB.contents]
    rw [if_pos hm2, if_neg (by omega)]
    rw [List.drop_append_eq_append_drop]
    rw [List.drop_eq_nil_of_le (show (B.drop t).length ≤ m from by rw [hlen]; omega)]
    rw [List.nil_append, hlen]
    rw [List.drop_take]
  · simp only [RB.contents]
    rw [if_neg (by omega)]
    rw [List.take_append_eq_append_take, hlen]
    rw [List.take_of_length_le (show (B.drop t).length ≤ m from by rw [hlen]; omega)]
    rw [List.take_take]
    rw [show (m - (s - t)) ⊓ h = m - (s - t) from by omega]
    rw [htk]

theorem take_length_min (data : List Nat) (n : Nat) (h : n ≤ data.length) :
    (data.take n).length = n := by
  rw [List.length_take]; omega

theorem write_multi_spec (rb : RB) (data : List Nat) (len : Nat)
    (hv : rb.valid) (hlen : len ≤ data.length) :
    (ring_buffer_write_multi rb data len).2 = min len (ring_buffer_free_space rb) ∧
    (ring_buffer_write_multi rb data len).1.valid ∧
    (ring_buffer_write_multi rb data len).1.contents
      = rb.contents ++ data.take (min len (ring_buffer_free_space rb)) ∧
    (ring_buffer_write_multi rb data len).1.size = rb.size := by
  have hF := free_space_eq rb hv
  have hA := available_lt rb hv
  obtain ⟨B, s, h, t⟩ := rb
  obtain ⟨hs, hh, ht, hb⟩ := hv
  simp only [RB.size_mk, RB.head_mk, RB.tail_mk, RB.buf_mk] at hs hh ht hb hA hF ⊢
  unfold ring_buffer_write_multi
  simp only [RB.size_mk, RB.head_mk, RB.tail_mk, RB.buf_mk]
  rw [if_neg (by omega)]
  by_cases hl0 : len = 0
  · subst hl0
    rw [if_pos rfl]
    refine ⟨by simp, ⟨hs, hh, ht, hb⟩, by simp, rfl⟩
  rw [if_neg hl0]
  by_cases hf0 : ring_buffer_free_space ⟨B, s, h, t⟩ = 0
  · rw [if_pos hf0]
    refine ⟨by simp [hf0], ⟨hs, hh, ht, hb⟩, by simp [hf0], rfl⟩
  rw [if_neg hf0]
  set F := ring_buffer_free_space ⟨B, s, h, t⟩ with hFdef
  set A := ring_buffer_available ⟨B, s, h, t⟩ with hAdef
  have hn : (if len > F then F else len) = min len F := by split <;> omega
  simp only [hn]
  set n := min len F with hndef
  have hn0 : 0 < n := by omega
  have hnlen : n ≤ data.length := by omega
  have hAeq : (t ≤ h ∧ A = h - t) ∨ (h < t ∧ A = s - t + h) := by
    rw [hAdef]
    unfold ring_buffer_available
    simp only [RB.size_mk, RB.head_mk, RB.tail_mk]
    rcases le_or_lt t h with hle | hlt
    · left
      refine ⟨hle, ?_⟩
      rw [if_neg (by omega), if_pos (by omega)]
    · right
      refine ⟨hlt, ?_⟩
      rw [if_neg (by omega), if_neg (by omega)]
  by_cases hth : h ≥ t
  · rw [if_pos hth]
    have hAv : A = h - t := by
      rcases hAeq with ⟨_, e⟩ | ⟨c, _⟩
      · exact e
      · omega
    by_cases hpart : n ≤ s - h
    · rw [if_pos hpart]
      have hDl : (data.take n).length = n := take_length_min data n hnlen
      have hcw := contents_write_nowrap B (data.take n) s h t hb hth hh ht
        (by rw [hDl]; omega) (by rw [hDl]; omega)
      rw [hDl] at hcw
      refine ⟨rfl, ?_, hcw, rfl⟩
      refine ⟨hs, ?_, ht, ?_⟩
      · simp only [RB.head_mk]
        exact Nat.mod_lt _ (by omega)
      · simp only [RB.buf_mk, RB.size_mk]
        rw [copyInto_length]
        · exact hb
        · rw [hDl]; omega
    · rw [if_neg hpart]
      have hD1l : (data.take (s - h)).length = s - h :=
        take_length_min data (s - h) (by omega)
      have hD2l : ((data.drop (s - h)).take (n - (s - h))).length = n - (s - h) := by
        rw [List.length_take, List.length_drop]; omega
      have hD2t : ((data.drop (s - h)).take (n - (s - h))).length < t := by
        rw [hD2l]; omega
      have hcw := contents_write_wrap B (data.take (s - h))
        ((data.drop (s - h)).take (n - (s - h))) s h t hb hth hh hD1l hD2t
      rw [hD2l] at hcw
      have hsplit : data.take (s - h) ++ (data.drop (s - h)).take (n - (s - h))
          = data.take n := by
        rw [← List.take_add]
        congr 1
        omega
      rw [hsplit] at hcw
      refine ⟨rfl, ?_, hcw, rfl⟩
      refine ⟨hs, by simp only [RB.head_mk]; omega, ht, ?_⟩
      simp only [RB.buf_mk, RB.size_mk]
      rw [copyInto_length, copyInto_length]
      · exact hb
      · rw [hD1l]; omega
      · rw [hD2l, copyInto_length]
        · omega
        · rw [hD1l]; omega
  · rw [if_neg hth]
    have hAv : A = s - t + h := by
      rcases hAeq with ⟨c, _⟩ | ⟨_, e⟩
      · omega
      · exact e
    have hDl : (data.take n).length = n := take_length_min data n hnlen
    have hcw := contents_write_mid B (data.take n) s h t hb (by omega) ht
      (by rw [hDl]; omega)
    rw [hDl] at hcw
    refine ⟨rfl, ?_, hcw, rfl⟩
    refine ⟨hs, by simp only [RB.head_mk]; omega, ht, ?_⟩
    simp only [RB.buf_mk, RB.size_mk]
    rw [copyInto_length]
    · exact hb
    · rw [hDl]; omega

theorem read_multi_spec (rb : RB) (len : Nat) (hv : rb.valid) :
    (ring_buffer_read_multi rb len).2
      = rb.contents.take (min len (ring_buffer_available rb)) ∧
    (ring_buffer_read_multi rb len).1.valid ∧
    (ring_buffer_read_multi rb len).1.contents
      = rb.contents.drop (min len (ring_buffer_available rb)) ∧
    (ring_buffer_read_multi rb len).1.size = rb.size := by
  have hA := available_lt rb hv
  obtain ⟨B, s, h, t⟩ := rb
  obtain ⟨hs, hh, ht, hb⟩ := hv
  simp only [RB.size_mk, RB.head_mk, RB.tail_mk, RB.buf_mk] at hs hh ht hb hA ⊢
  unfold ring_buffer_read_multi
  simp only [RB.size_mk, RB.head_mk, RB.tail_mk, RB.buf_mk]
  rw [if_neg (by omega)]
  by_cases hl0 : len = 0
  · subst hl0
    rw [if_pos rfl]
    refine ⟨by simp, ⟨hs, hh, ht, hb⟩, by simp, rfl⟩
  rw [if_neg hl0]
  by_cases ha0 : ring_buffer_available ⟨B, s, h, t⟩ = 0
  · rw [if_pos ha0]
    refine ⟨by simp [ha0], ⟨hs, hh, ht, hb⟩, by simp [ha0], rfl⟩
  rw [if_neg ha0]
  set A := ring_buffer_available ⟨B, s, h, t⟩ with hAdef
  have hm : (if len > A then A else len) = min len A := by split <;> omega
  simp only [hm]
  set m := min len A with hmdef
  have hm0 : 0 < m := by omega
  have hAeq : (t ≤ h ∧ A = h - t) ∨ (h < t ∧ A = s - t + h) := by
    rw [hAdef]
    unfold ring_buffer_available
    simp only [RB.size_mk, RB.head_mk, RB.tail_mk]
    rcases le_or_lt t h with hle | hlt
    · left
      refine ⟨hle, ?_⟩
      rw [if_neg (by omega), if_pos (by omega)]
    · right
      refine ⟨hlt, ?_⟩
      rw [if_neg (by omega), if_neg (by omega)]
  by_cases hth : t < h
  · rw [if_pos hth]
    have hAv : A = h - t := by
      rcases hAeq with ⟨_, e⟩ | ⟨c, _⟩
      · exact e
      · omega
    have hcr := contents_read_linear B s h t m hb (by omega) hh (by omega)
    refine ⟨hcr.2, ⟨hs, hh, by simp only [RB.tail_mk]; omega, hb⟩, hcr.1, rfl⟩
  · rw [if_neg hth]
    have hht : h < t := by
      rcases hAeq with ⟨c, e⟩ | ⟨c, _⟩
      · omega
      · omega
    have hAv : A = s - t + h := by
      rcases hAeq with ⟨c, _⟩ | ⟨_, e⟩
      · omega
      · exact e
    by_cases hpart : m ≤ s - t
    · rw [if_pos hpart]
      have hcr := contents_read_wrap1 B s h t m hb hht ht hpart
      refine ⟨hcr.2, ⟨hs, hh, ?_, hb⟩, hcr.1, rfl⟩
      simp only [RB.tail_mk]
      exact Nat.mod_lt _ (by omega)
    · rw [if_neg hpart]
      have hcr := contents_read_wrap2 B s h t m hb hht ht (by omega) (by omega)
      refine ⟨hcr.2.symm ▸ ?_, ⟨hs, hh, by simp only [RB.tail_mk]; omega, hb⟩, hcr.1, rfl⟩
      exact hcr.2.symm ▸ rfl

theorem drop_take_one (l : List Nat) (i : Nat) (hi : i < l.length) :
    (l.drop i).take 1 = [l.getD i 0] := by
  have h0 : (l.drop i)[0]? = l[i]? := by
    simp [List.getElem?_drop]
  cases hd : l.drop i with
  | nil =>
    have hlen := List.length_drop i l
    rw [hd] at hlen
    simp at hlen
    omega
  | cons x xs =>
    rw [hd] at h0
    simp only [List.getElem?_cons_zero] at h0
    rw [List.getD_eq_getElem?_getD, ← h0]
    simp

theorem write_spec_full (rb : RB) (b : Nat) (hv : rb.valid)
    (hfull : (rb.head + 1) % rb.size = rb.tail) :
    ring_buffer_write rb b = (rb, false) := by
  obtain ⟨hs, hh, ht, hb⟩ := hv
  unfold ring_buffer_write
  rw [if_neg (by omega), if_pos hfull]

theorem write_spec_ok (rb : RB) (b : Nat) (hv : rb.valid)
    (hnf : (rb.head + 1) % rb.size ≠ rb.tail) :
    (ring_buffer_write rb b).2 = true ∧
    (ring_buffer_write rb b).1.valid ∧
    (ring_buffer_write rb b).1.contents = rb.contents ++ [b] ∧
    (ring_buffer_write rb b).1.size = rb.size := by
  obtain ⟨B, s, h, t⟩ := rb
  obtain ⟨hs, hh, ht, hb⟩ := hv
  simp only [RB.size_mk, RB.head_mk, RB.tail_mk, RB.buf_mk] at hs hh ht hb hnf ⊢
  unfold ring_buffer_write
  simp only [RB.size_mk, RB.head_mk, RB.tail_mk, RB.buf_mk]
  rw [if_neg (by omega), if_neg hnf]
  refine ⟨rfl, ?_, ?_, rfl⟩
  · refine ⟨hs, ?_, ht, ?_⟩
    · simp only [RB.head_mk]
      exact Nat.mod_lt _ (by omega)
    · simp only [RB.buf_mk, RB.size_mk]
      rw [copyInto_length]
      · exact hb
      · simp; omega
  · rcases le_or_lt t h with hth | hth
    · have hwrap : h + 1 = s → 0 < t := by
        intro he
        rcases Nat.eq_zero_or_pos t with h0 | h0
        · exfalso
          apply hnf
          rw [he, Nat.mod_self, h0]
        · exact h0
      have hcw := contents_write_nowrap B [b] s h t hb hth hh ht
        (by simp; omega) (by simpa using hwrap)
      simpa using hcw
    · have hmid : h + 1 < t := by
        rcases Nat.lt_or_ge (h + 1) s with c | c
        · rw [Nat.mod_eq_of_lt c] at hnf
          omega
        · omega
      have hcw := contents_write_mid B [b] s h t hb hth ht (by simpa using hmid)
      have hmod : (h + 1) % s = h + 1 := Nat.mod_eq_of_lt (by omega)
      simp only [List.length_singleton] at hcw
      rw [hmod]
      exact hcw

theorem read_spec_empty (rb : RB) (hv : rb.valid) (he : rb.head = rb.tail) :
    ring_buffer_read rb = (rb, none) := by
  obtain ⟨hs, hh, ht, hb⟩ := hv
  unfold ring_buffer_read
  rw [if_neg (by omega), if_pos he]

theorem read_spec_ok (rb : RB) (hv : rb.valid) (hne : rb.head ≠ rb.tail) :
    (ring_buffer_read rb).2.toList = rb.contents.take 1 ∧
    (ring_buffer_read rb).1.valid ∧
    (ring_buffer_read rb).1.contents = rb.contents.drop 1 ∧
    (ring_buffer_read rb).1.size = rb.size := by
  obtain ⟨B, s, h, t⟩ := rb
  obtain ⟨hs, hh, ht, hb⟩ := hv
  simp only [RB.size_mk, RB.head_mk, RB.tail_mk, RB.buf_mk] at hs hh ht hb hne ⊢
  unfold ring_buffer_read
  simp only [RB.size_mk, RB.head_mk, RB.tail_mk, RB.buf_mk]
  rw [if_neg (by omega), if_neg hne]
  have hone : (B.drop t).take 1 = [B.getD t 0] := drop_take_one B t (by omega)
  rcases le_or_lt t h with hth | hth
  · have hlt : t < h := by omega
    have hcr := contents_read_linear B s h t 1 hb hth hh (by omega)
    have hmod : (t + 1) % s = t + 1 := Nat.mod_eq_of_lt (by omega)
    rw [hmod]
    refine ⟨?_, ⟨hs, hh, by simp only [RB.tail_mk]; omega, hb⟩, hcr.1, rfl⟩
    simp only [Option.toList_some]
    rw [← hone, hcr.2]
  · have hcr := contents_read_wrap1 B s h t 1 hb hth ht (by omega)
    refine ⟨?_, ⟨hs, hh, ?_, hb⟩, hcr.1, rfl⟩
    · simp only [Option.toList_some]
      rw [← hone, hcr.2]
    · simp only [RB.tail_mk]
      exact Nat.mod_lt _ (by omega)

theorem runData_fifo (ops : List DataOp) (rb : RB) (hv : rb.valid)
    (hwf : ops.all DataOp.wfb = true) :
    (runData ops rb).1.valid ∧
    (runData ops rb).2.2 ++ (runData ops rb).1.contents
      = rb.contents ++ (runData ops rb).2.1 := by
  induction ops generalizing rb with
  | nil => simpa [runData] using hv
  | cons op ops ih =>
    rw [List.all_cons, Bool.and_eq_true] at hwf
    obtain ⟨hop, hops⟩ := hwf
    cases op with
    | write b =>
      simp only [runData]
      by_cases hfull : (rb.head + 1) % rb.size = rb.tail
      · rw [write_spec_full rb b hv hfull]
        have hi := ih rb hv hops
        simp only [Bool.false_eq_true, if_neg (by simp : ¬False), List.nil_append]
        refine ⟨hi.1, ?_⟩
        rw [hi.2]
      · obtain ⟨hr2, hv2, hc2, hsz2⟩ := write_spec_ok rb b hv hfull
        have hi := ih (ring_buffer_write rb b).1 hv2 hops
        rw [hr2]
        simp only [if_pos trivial]
        refine ⟨hi.1, ?_⟩
        rw [hi.2, hc2, List.append_assoc]
    | read =>
      simp only [runData]
      by_cases he : rb.head = rb.tail
      · rw [read_spec_empty rb hv he]
        have hi := ih rb hv hops
        simp only [Option.toList_none, List.nil_append]
        exact hi
      · obtain ⟨hr2, hv2, hc2, hsz2⟩ := read_spec_ok rb hv he
        have hi := ih (ring_buffer_read rb).1 hv2 hops
        refine ⟨hi.1, ?_⟩
        rw [List.append_assoc, hi.2, hc2, hr2, ← List.append_assoc,
            List.take_append_drop]
    | writeMulti data len =>
      have hlen : len ≤ data.length := by simpa [DataOp.wfb] using hop
      obtain ⟨hr2, hv2, hc2, hsz2⟩ := write_multi_spec rb data len hv hlen
      simp only [runData]
      have hi := ih (ring_buffer_write_multi rb data len).1 hv2 hops
      refine ⟨hi.1, ?_⟩
      rw [hi.2, hc2, hr2, List.append_assoc]
    | readMulti len =>
      obtain ⟨hr2, hv2, hc2, hsz2⟩ := read_multi_spec rb len hv
      simp only [runData]
      have hi := ih (ring_buffer_read_multi rb len).1 hv2 hops
      refine ⟨hi.1, ?_⟩
      rw [List.append_assoc, hi.2, hc2, hr2, ← List.append_assoc,
          List.take_append_drop]

theorem available_eq (B : List Nat) (s h t : Nat) (hs : 2 ≤ s) :
    ring_buffer_available ⟨B, s, h, t⟩ = if t ≤ h then h - t else s - t + h := by
  unfold ring_buffer_available
  simp only [RB.size_mk, RB.head_mk, RB.tail_mk]
  rw [if_neg (by omega)]

theorem free_space_eq2 (B : List Nat) (s h t : Nat) (hs : 2 ≤ s) :
    ring_buffer_free_space ⟨B, s, h, t⟩
      = s - 1 - ring_buffer_available ⟨B, s, h, t⟩ := by
  unfold ring_buffer_free_space
  simp only [RB.size_mk]
  rw [if_neg (by omega)]
  omega

theorem lockfree_available_eq (B : List Nat) (s h t : Nat) :
    lockfree_available ⟨B, s, h, t⟩ = if t ≤ h then h - t else s - t + h := by
  unfold lockfree_available
  simp only [RB.size_mk, RB.head_mk, RB.tail_mk]

theorem is_full_iff (rb : RB) (hv : rb.valid) :
    (ring_buffer_is_full rb = true) ↔ ring_buffer_available rb = rb.size - 1 := by
  have hA := available_lt rb hv
  obtain ⟨B, s, h, t⟩ := rb
  obtain ⟨hs, hh, ht, hb⟩ := hv
  simp only [RB.size_mk, RB.head_mk, RB.tail_mk, RB.buf_mk] at hs hh ht hb hA ⊢
  rw [available_eq B s h t hs]
  unfold ring_buffer_is_full
  simp only [RB.size_mk, RB.head_mk, RB.tail_mk]
  rw [if_neg (by omega), beq_iff_eq]
  rcases le_or_lt t h with hth | hth
  · rw [if_pos hth]
    rcases Nat.lt_or_ge (h + 1) s with c | c
    · rw [Nat.mod_eq_of_lt c]
      omega
    · rw [show h + 1 = s from by omega, Nat.mod_self]
      omega
  · rw [if_neg (by omega)]
    rw [Nat.mod_eq_of_lt (by omega)]
    omega

theorem write_idx (B : List Nat) (s h t b : Nat) (hs : 2 ≤ s) (hh : h < s) (ht : t < s) :
    (ring_buffer_write ⟨B, s, h, t⟩ b).1.size = s ∧
    (ring_buffer_write ⟨B, s, h, t⟩ b).1.head < s ∧
    (ring_buffer_write ⟨B, s, h, t⟩ b).1.tail < s := by
  unfold ring_buffer_write
  simp only [RB.size_mk, RB.head_mk, RB.tail_mk, RB.buf_mk]
  rw [if_neg (by omega)]
  by_cases hfull : (h + 1) % s = t
  · rw [if_pos hfull]
    exact ⟨rfl, hh, ht⟩
  · rw [if_neg hfull]
    exact ⟨rfl, Nat.mod_lt _ (by omega), ht⟩

theorem read_idx (B : List Nat) (s h t : Nat) (hs : 2 ≤ s) (hh : h < s) (ht : t < s) :
    (ring_buffer_read ⟨B, s, h, t⟩).1.size = s ∧
    (ring_buffer_read ⟨B, s, h, t⟩).1.head < s ∧
    (ring_buffer_read ⟨B, s, h, t⟩).1.tail < s := by
  unfold ring_buffer_read
  simp only [RB.size_mk, RB.head_mk, RB.tail_mk, RB.buf_mk]
  rw [if_neg (by omega)]
  by_cases he : h = t
  · rw [if_pos he]
    exact ⟨rfl, hh, ht⟩
  · rw [if_neg he]
    exact ⟨rfl, hh, Nat.mod_lt _ (by omega)⟩

theorem write_multi_idx (B : List Nat) (s h t : Nat) (data : List Nat) (len : Nat)
    (hs : 2 ≤ s) (hh : h < s) (ht : t < s) :
    (ring_buffer_write_multi ⟨B, s, h, t⟩ data len).1.size = s ∧
    (ring_buffer_write_multi ⟨B, s, h, t⟩ data len).1.head < s ∧
    (ring_buffer_write_multi ⟨B, s, h, t⟩ data len).1.tail < s := by
  have hA := available_eq B s h t hs
  have hF := free_space_eq2 B s h t hs
  unfold ring_buffer_write_multi
  simp only [RB.size_mk, RB.head_mk, RB.tail_mk, RB.buf_mk]
  rw [if_neg (by omega)]
  by_cases hl0 : len = 0
  · rw [if_pos hl0]
    exact ⟨rfl, hh, ht⟩
  rw [if_neg hl0]
  by_cases hf0 : ring_buffer_free_space ⟨B, s, h, t⟩ = 0
  · rw [if_pos hf0]
    exact ⟨rfl, hh, ht⟩
  rw [if_neg hf0]
  set F := ring_buffer_free_space ⟨B, s, h, t⟩ with hFd
  set n := if len > F then F else len with hn
  have hnF : n ≤ F := by
    rw [hn]
    split <;> omega
  by_cases hth : h ≥ t
  · rw [if_pos hth]
    rw [if_pos (by omega)] at hA
    by_cases hpart : n ≤ s - h
    · rw [if_pos hpart]
      exact ⟨rfl, Nat.mod_lt _ (by omega), ht⟩
    · rw [if_neg hpart]
      refine ⟨rfl, ?_, ht⟩
      show n - (s - h) < s
      omega
  · rw [if_neg hth]
    rw [if_neg (by omega)] at hA
    refine ⟨rfl, ?_, ht⟩
    show h + n < s
    omega

theorem read_multi_idx (B : List Nat) (s h t : Nat) (len : Nat)
    (hs : 2 ≤ s) (hh : h < s) (ht : t < s) :
    (ring_buffer_read_multi ⟨B, s, h, t⟩ len).1.size = s ∧
    (ring_buffer_read_multi ⟨B, s, h, t⟩ len).1.head < s ∧
    (ring_buffer_read_multi ⟨B, s, h, t⟩ len).1.tail < s := by
  have hA := available_eq B s h t hs
  unfold ring_buffer_read_multi
  simp only [RB.size_mk, RB.head_mk, RB.tail_mk, RB.buf_mk]
  rw [if_neg (by omega)]
  by_cases hl0 : len = 0
  · rw [if_pos hl0]
    exact ⟨rfl, hh, ht⟩
  rw [if_neg hl0]
  by_cases ha0 : ring_buffer_available ⟨B, s, h, t⟩ = 0
  · rw [if_pos ha0]
    exact ⟨rfl, hh, ht⟩
  rw [if_neg ha0]
  set A := ring_buffer_available ⟨B, s, h, t⟩ with hAd
  set m := if len > A then A else len with hm
  have hmA : m ≤ A := by
    rw [hm]
    split <;> omega
  by_cases hth : t < h
  · rw [if_pos hth]
    rw [if_pos (by omega)] at hA
    refine ⟨rfl, hh, ?_⟩
    show t + m < s
    omega
  · rw [if_neg hth]
    have hht : h < t := by
      rcases eq_or_lt_of_le (Nat.not_lt.mp hth) with he | hlt2
      · exfalso
        apply ha0
        rw [hA, ← he]
        simp
      · exact hlt2
    rw [if_neg (by omega)] at hA
    by_cases hpart : m ≤ s - t
    · rw [if_pos hpart]
      exact ⟨rfl, hh, Nat.mod_lt _ (by omega)⟩
    · rw [if_neg hpart]
      refine ⟨rfl, hh, ?_⟩
      show m - (s - t) < s
      omega

theorem writeMultiRegions_bound (B : List Nat) (s h t : Nat) (len : Nat)
    (hs : 2 ≤ s) (hh : h < s) (ht : t < s) :
    ∀ p ∈ writeMultiRegions ⟨B, s, h, t⟩ len, p.1 + p.2 ≤ s := by
  have hA := available_eq B s h t hs
  have hF := free_space_eq2 B s h t hs
  unfold writeMultiRegions
  simp only [RB.size_mk, RB.head_mk, RB.tail_mk, RB.buf_mk]
  rw [if_neg (by omega)]
  by_cases hl0 : len = 0
  · rw [if_pos hl0]
    intro p hp
    simp at hp
  rw [if_neg hl0]
  by_cases hf0 : ring_buffer_free_space ⟨B, s, h, t⟩ = 0
  · rw [if_pos hf0]
    intro p hp
    simp at hp
  rw [if_neg hf0]
  set F := ring_buffer_free_space ⟨B, s, h, t⟩ with hFd
  set n := if len > F then F else len with hn
  have hnF : n ≤ F := by
    rw [hn]
    split <;> omega
  by_cases hth : h ≥ t
  · rw [if_pos hth]
    rw [if_pos (by omega)] at hA
    by_cases hpart : n ≤ s - h
    · rw [if_pos hpart]
      intro p hp
      simp at hp
      subst hp
      show h + n ≤ s
      omega
    · rw [if_neg hpart]
      intro p hp
      simp at hp
      rcases hp with hp | hp <;> subst hp
      · show h + (s - h) ≤ s
        omega
      · show 0 + (n - (s - h)) ≤ s
        omega
  · rw [if_neg hth]
    rw [if_neg (by omega)] at hA
    intro p hp
    simp at hp
    subst hp
    show h + n ≤ s
    omega

theorem readMultiRegions_bound (B : List Nat) (s h t : Nat) (len : Nat)
    (hs : 2 ≤ s) (hh : h < s) (ht : t < s) :
    ∀ p ∈ readMultiRegions ⟨B, s, h, t⟩ len, p.1 + p.2 ≤ s := by
  have hA := available_eq B s h t hs
  unfold readMultiRegions
  simp only [RB.size_mk, RB.head_mk, RB.tail_mk, RB.buf_mk]
  rw [if_neg (by omega)]
  by_cases hl0 : len = 0
  · rw [if_pos hl0]
    intro p hp
    simp at hp
  rw [if_neg hl0]
  by_cases ha0 : ring_buffer_available ⟨B, s, h, t⟩ = 0
  · rw [if_pos ha0]
    intro p hp
    simp at hp
  rw [if_neg ha0]
  set A := ring_buffer_available ⟨B, s, h, t⟩ with hAd
  set m := if len > A then A else len with hm
  have hmA : m ≤ A := by
    rw [hm]
    split <;> omega
  by_cases hth : t < h
  · rw [if_pos hth]
    rw [if_pos (by omega)] at hA
    intro p hp
    simp at hp
    subst hp
    show t + m ≤ s
    omega
  · rw [if_neg hth]
    have hht : h < t := by
      rcases eq_or_lt_of_le (Nat.not_lt.mp hth) with he | hlt2
      · exfalso
        apply ha0
        rw [hA, ← he]
        simp
      · exact hlt2
    rw [if_neg (by omega)] at hA
    by_cases hpart : m ≤ s - t
    · rw [if_pos hpart]
      intro p hp
      simp at hp
      subst hp
      show t + m ≤ s
      omega
    · rw [if_neg hpart]
      intro p hp
      simp at hp
      rcases hp with hp | hp <;> subst hp
      · show t + (s - t) ≤ s
        omega
      · show 0 + (m - (s - t)) ≤ s
        omega

theorem lockfreeWriteMultiRegions_bound (B : List Nat) (s h t : Nat) (len : Nat)
    (hs : 2 ≤ s) (hh : h < s) (ht : t < s) :
    ∀ p ∈ lockfreeWriteMultiRegions ⟨B, s, h, t⟩ len, p.1 + p.2 ≤ s := by
  have hA := lockfree_available_eq B s h t
  have hF : lockfree_free_space ⟨B, s, h, t⟩
      = s - 1 - lockfree_available ⟨B, s, h, t⟩ := rfl
  unfold lockfreeWriteMultiRegions
  simp only [RB.size_mk, RB.head_mk, RB.tail_mk, RB.buf_mk]
  by_cases hl0 : len = 0
  · rw [if_pos hl0]
    intro p hp
    simp at hp
  rw [if_neg hl0]
  set F := lockfree_free_space ⟨B, s, h, t⟩ with hFd
  set n := if len > F then F else len with hn
  have hnF : n ≤ F := by
    rw [hn]
    split <;> omega
  by_cases hn0 : n = 0
  · rw [if_pos hn0]
    intro p hp
    simp at hp
  rw [if_neg hn0]
  rcases le_or_lt t h with hth | hth
  · rw [if_pos hth] at hA
    by_cases hfit : h + n ≤ s
    · rw [if_pos hfit]
      intro p hp
      simp at hp
      subst hp
      show h + n ≤ s
      omega
    · rw [if_neg hfit]
      intro p hp
      simp at hp
      rcases hp with hp | hp <;> subst hp
      · show h + (s - h) ≤ s
        omega
      · show 0 + (n - (s - h)) ≤ s
        omega
  · rw [if_neg (by omega)] at hA
    by_cases hfit : h + n ≤ s
    · rw [if_pos hfit]
      intro p hp
      simp at hp
      subst hp
      show h + n ≤ s
      omega
    · rw [if_neg hfit]
      intro p hp
      simp at hp
      rcases hp with hp | hp <;> subst hp
      · show h + (s - h) ≤ s
        omega
      · show 0 + (n - (s - h)) ≤ s
        omega

theorem copyInto_one_getD_self (B : List Nat) (h b : Nat) (hh : h < B.length) :
    (copyInto B h [b]).getD h 0 = b := by
  have hTh : (B.take h).length = h := by rw [List.length_take]; omega
  unfold copyInto
  rw [List.getD_eq_getElem?_getD]
  rw [List.getElem?_append, if_pos (by rw [List.length_append, hTh]; simp)]
  rw [List.getElem?_append, if_neg (by rw [hTh]; omega)]
  rw [hTh, Nat.sub_self]
  simp

theorem copyInto_one_getD_other (B : List Nat) (h b i : Nat) (hil : i < B.length)
    (hne : i ≠ h) : (copyInto B h [b]).getD i 0 = B.getD i 0 := by
  unfold copyInto
  rw [List.getD_eq_getElem?_getD, List.getD_eq_getElem?_getD]
  rw [List.getElem?_append]
  rcases Nat.lt_or_ge i h with c | c
  · have hTh : (B.take h).length = h ⊓ B.length := List.length_take h B
    rw [if_pos (by rw [List.length_append, hTh]; simp; omega)]
    rw [List.getElem?_append, if_pos (by rw [hTh]; simp; omega)]
    rw [List.getElem?_take, if_pos c]
  · have hhB : h < B.length := by omega
    have hTh : (B.take h).length = h := by rw [List.length_take]; omega
    have hi1 : h + 1 ≤ i := by omega
    rw [if_neg (by rw [List.length_append, hTh]; simp; omega)]
    rw [List.length_append, hTh, List.length_singleton]
    rw [List.getElem?_drop]
    rw [show h + 1 + (i - (h + 1)) = i from by omega]

theorem copyInto_one_take (B : List Nat) (h b : Nat) (hh : h ≤ B.length) :
    (copyInto B h [b]).take h = B.take h := by
  have hTh : (B.take h).length = h := by rw [List.length_take]; omega
  unfold copyInto
  rw [List.take_append_of_le_length (show h ≤ (B.take h ++ [b]).length from by
    rw [List.length_append, hTh]; omega)]
  rw [List.take_append_of_le_length (show h ≤ (B.take h).length from by rw [hTh])]
  rw [List.take_take]
  simp

theorem copyInto_one_drop (B : List Nat) (h b : Nat) (hh : h < B.length) :
    (copyInto B h [b]).drop (h + 1) = B.drop (h + 1) := by
  have hTh : (B.take h).length = h := by rw [List.length_take]; omega
  unfold copyInto
  rw [List.drop_append_eq_append_drop, List.drop_append_eq_append_drop]
  rw [List.drop_eq_nil_of_le (show (B.take h).length ≤ h + 1 from by rw [hTh]; omega)]
  rw [hTh]
  rw [List.drop_eq_nil_of_le (show ([b] : List Nat).length ≤ h + 1 - h from by simp)]
  simp only [List.nil_append, List.length_append, hTh, List.length_singleton]
  rw [List.drop_drop]
  congr 1
  omega

theorem disable_irq_write_multi_eq (rb : RB) (d : List Nat) (l : Nat) :
    disable_irq_write_multi rb d l = lockfree_write_multi rb d l := by
  unfold disable_irq_write_multi
  by_cases h : l = 0
  · rw [if_pos h]
    unfold lockfree_write_multi
    rw [if_pos h]
  · rw [if_neg h]

theorem disable_irq_read_multi_eq (rb : RB) (l : Nat) :
    disable_irq_read_multi rb l = lockfree_read_multi rb l := by
  unfold disable_irq_read_multi
  by_cases h : l = 0
  · rw [if_pos h]
    unfold lockfree_read_multi
    rw [if_pos h]
  · rw [if_neg h]

theorem stepDisableIrq_eq (op : RBOp) (rb : RB) :
    stepDisableIrq op rb = stepLockfree op rb := by
  cases op <;>
    simp [stepDisableIrq, stepLockfree, disable_irq_write, disable_irq_read,
      disable_irq_write_multi_eq, disable_irq_read_multi_eq, disable_irq_available,
      disable_irq_free_space, disable_irq_is_empty, disable_irq_is_full,
      disable_irq_clear]

theorem mutex_write_multi_eq (rb : RB) (d : List Nat) (l : Nat) :
    mutex_write_multi ⟨rb, some ()⟩ d l
      = (⟨(lockfree_write_multi rb d l).1, some ()⟩, (lockfree_write_multi rb d l).2) := by
  unfold mutex_write_multi
  by_cases h : l = 0
  · rw [if_pos h]
    unfold lockfree_write_multi
    rw [if_pos h]
  · rw [if_neg h]

theorem mutex_read_multi_eq (rb : RB) (l : Nat) :
    mutex_read_multi ⟨rb, some ()⟩ l
      = (⟨(lockfree_read_multi rb l).1, some ()⟩, (lockfree_read_multi rb l).2) := by
  unfold mutex_read_multi
  by_cases h : l = 0
  · rw [if_pos h]
    unfold lockfree_read_multi
    rw [if_pos h]
  · rw [if_neg h]

theorem stepMutex_eq (op : RBOp) (rb : RB) :
    stepMutex op ⟨rb, some ()⟩
      = (⟨(stepLockfree op rb).1, some ()⟩, (stepLockfree op rb).2) := by
  cases op with
  | writeMulti d l =>
    have he := mutex_write_multi_eq rb d l
    simp [stepMutex, stepLockfree, he]
  | readMulti l =>
    have he := mutex_read_multi_eq rb l
    simp [stepMutex, stepLockfree, he]
  | _ =>
    simp [stepMutex, stepLockfree, mutex_write, mutex_read, mutex_available,
      mutex_free_space, mutex_is_empty, mutex_is_full, mutex_clear]

theorem runDisableIrq_eq (ops : List RBOp) (rb : RB) :
    runDisableIrq ops rb = runLockfree ops rb := by
  induction ops generalizing rb with
  | nil => rfl
  | cons op ops ih =>
    simp [runDisableIrq, runLockfree, stepDisableIrq_eq, ih]

theorem runMutex_eq (ops : List RBOp) (rb : RB) :
    runMutex ops ⟨rb, some ()⟩
      = (⟨(runLockfree ops rb).1, some ()⟩, (runLockfree ops rb).2) := by
  induction ops generalizing rb with
  | nil => rfl
  | cons op ops ih =>
    simp [runMutex, runLockfree, stepMutex_eq, ih]

/-- C1: for every buffer successfully initialized via ring_buffer_init with
size at least 2, and every sequence of ring_buffer_write /
ring_buffer_write_multi / ring_buffer_read / ring_buffer_read_multi calls
executed sequentially with no concurrent interference, the bytes delivered
by the reads are, in order, exactly the bytes previously accepted by the
writes and not yet consumed (delivered ++ still-buffered = accepted),
across any number of index wraparounds. -/
theorem claim_C1_fifo_order (buf : List Nat) (size : Nat) (rb0 : RB)
    (ops : List DataOp)
    (hinit : ring_buffer_init (some buf) size = some rb0)
    (hbuf : buf.length = size)
    (hwf : ops.all DataOp.wfb = true) :
    (runData ops rb0).2.2 ++ (runData ops rb0).1.contents
      = (runData ops rb0).2.1 := by
  have hinit2 : (if size < 2 then none else some (RB.mk buf size 0 0)) = some rb0 :=
    hinit
  by_cases hlt : size < 2
  · rw [if_pos hlt] at hinit2
    cases hinit2
  · rw [if_neg hlt] at hinit2
    have hrb : rb0 = ⟨buf, size, 0, 0⟩ := by
      injection hinit2 with h
      exact h.symm
    subst hrb
    have hv : (RB.mk buf size 0 0).valid :=
      ⟨by simp only [RB.size_mk]; omega,
       by simp only [RB.size_mk, RB.head_mk]; omega,
       by simp only [RB.size_mk, RB.tail_mk]; omega,
       by simpa using hbuf⟩
    have hr := runData_fifo ops ⟨buf, size, 0, 0⟩ hv hwf
    have hc0 : (RB.mk buf size 0 0).contents = [] := by
      simp [RB.contents]
    rw [hc0] at hr
    simpa using hr.2

theorem claim_C1_fifo_order_witness :
    (runData [DataOp.write 1, DataOp.writeMulti [2, 3, 4] 3, DataOp.read,
        DataOp.readMulti 5] ⟨[0, 0, 0, 0], 4, 0, 0⟩).2.2
      ++ (runData [DataOp.write 1, DataOp.writeMulti [2, 3, 4] 3, DataOp.read,
        DataOp.readMulti 5] ⟨[0, 0, 0, 0], 4, 0, 0⟩).1.contents
      = (runData [DataOp.write 1, DataOp.writeMulti [2, 3, 4] 3, DataOp.read,
        DataOp.readMulti 5] ⟨[0, 0, 0, 0], 4, 0, 0⟩).2.1 :=
  claim_C1_fifo_order [0, 0, 0, 0] 4 ⟨[0, 0, 0, 0], 4, 0, 0⟩
    [DataOp.write 1, DataOp.writeMulti [2, 3, 4] 3, DataOp.read, DataOp.readMulti 5]
    (by decide) (by decide) (by decide)

/-- C2: for any sequence of the nine strategy-table operations executed
sequentially (no actual concurrency) from the same initial buffer state,
where the mutex buffer holds a successfully created lock, the lockfree,
disable-irq and mutex operation tables return identical values at every
step and leave identical head/tail/storage states; the guards never change
outcomes. -/
theorem claim_C2_strategy_equivalence (ops : List RBOp) (rb : RB) :
    runDisableIrq ops rb = runLockfree ops rb ∧
    runMutex ops ⟨rb, some ()⟩
      = (⟨(runLockfree ops rb).1, some ()⟩, (runLockfree ops rb).2) :=
  ⟨runDisableIrq_eq ops rb, runMutex_eq ops rb⟩

/-- C3: writing exactly free_space() bytes succeeds fully (count and
contents), and writing free_space() + 1 bytes writes and returns exactly
free_space(), leaving the buffer full. -/
theorem claim_C3_free_space_boundary (rb : RB) (data : List Nat)
    (hv : rb.valid) (hlen : ring_buffer_free_space rb + 1 ≤ data.length) :
    ((ring_buffer_write_multi rb data (ring_buffer_free_space rb)).2
        = ring_buffer_free_space rb ∧
      (ring_buffer_write_multi rb data (ring_buffer_free_space rb)).1.contents
        = rb.contents ++ data.take (ring_buffer_free_space rb)) ∧
    ((ring_buffer_write_multi rb data (ring_buffer_free_space rb + 1)).2
        = ring_buffer_free_space rb ∧
      ring_buffer_is_full
        (ring_buffer_write_multi rb data (ring_buffer_free_space rb + 1)).1 = true) := by
  have hF := free_space_eq rb hv
  have hA := available_lt rb hv
  constructor
  · have hsp := write_multi_spec rb data (ring_buffer_free_space rb) hv (by omega)
    rw [min_self] at hsp
    exact ⟨hsp.1, hsp.2.2.1⟩
  · have hsp := write_multi_spec rb data (ring_buffer_free_space rb + 1) hv (by omega)
    have hmin : min (ring_buffer_free_space rb + 1) (ring_buffer_free_space rb)
        = ring_buffer_free_space rb := by omega
    rw [hmin] at hsp
    refine ⟨hsp.1, ?_⟩
    have hv2 := hsp.2.1
    rw [is_full_iff _ hv2]
    have hl2 := contents_length _ hv2
    rw [hsp.2.2.1, List.length_append, contents_length rb hv,
        take_length_min data (ring_buffer_free_space rb) (by omega)] at hl2
    rw [← hl2, hsp.2.2.2]
    omega

theorem claim_C3_free_space_boundary_witness :
    ((ring_buffer_write_multi ⟨[0, 0, 0, 0], 4, 1, 0⟩ [5, 6, 7]
        (ring_buffer_free_space ⟨[0, 0, 0, 0], 4, 1, 0⟩)).2
      = ring_buffer_free_space ⟨[0, 0, 0, 0], 4, 1, 0⟩ ∧
     (ring_buffer_write_multi ⟨[0, 0, 0, 0], 4, 1, 0⟩ [5, 6, 7]
        (ring_buffer_free_space ⟨[0, 0, 0, 0], 4, 1, 0⟩)).1.contents
      = (RB.mk [0, 0, 0, 0] 4 1 0).contents
        ++ [5, 6, 7].take (ring_buffer_free_space ⟨[0, 0, 0, 0], 4, 1, 0⟩)) ∧
    ((ring_buffer_write_multi ⟨[0, 0, 0, 0], 4, 1, 0⟩ [5, 6, 7]
        (ring_buffer_free_space ⟨[0, 0, 0, 0], 4, 1, 0⟩ + 1)).2
      = ring_buffer_free_space ⟨[0, 0, 0, 0], 4, 1, 0⟩ ∧
     ring_buffer_is_full
        (ring_buffer_write_multi ⟨[0, 0, 0, 0], 4, 1, 0⟩ [5, 6, 7]
          (ring_buffer_free_space ⟨[0, 0, 0, 0], 4, 1, 0⟩ + 1)).1 = true) :=
  claim_C3_free_space_boundary ⟨[0, 0, 0, 0], 4, 1, 0⟩ [5, 6, 7]
    (by decide) (by decide)

/-- C4: on a valid buffer, ring_buffer_write and lockfree_write fail and
mutate nothing exactly when (head + 1) mod size = tail; otherwise the byte
is stored at index head, head advances to (head + 1) mod size, tail, size
and every other storage position are unchanged, and the call returns true. -/
theorem claim_C4_write_one (rb : RB) (b : Nat) (hv : rb.valid) :
    ((rb.head + 1) % rb.size = rb.tail →
      ring_buffer_write rb b = (rb, false) ∧ lockfree_write rb b = (rb, false)) ∧
    ((rb.head + 1) % rb.size ≠ rb.tail →
      (ring_buffer_write rb b).2 = true ∧
      (ring_buffer_write rb b).1.buf.getD rb.head 0 = b ∧
      (ring_buffer_write rb b).1.head = (rb.head + 1) % rb.size ∧
      (ring_buffer_write rb b).1.tail = rb.tail ∧
      (ring_buffer_write rb b).1.size = rb.size ∧
      (ring_buffer_write rb b).1.buf.take rb.head = rb.buf.take rb.head ∧
      (ring_buffer_write rb b).1.buf.drop (rb.head + 1) = rb.buf.drop (rb.head + 1) ∧
      lockfree_write rb b = ring_buffer_write rb b) := by
  obtain ⟨hs, hh, ht, hb⟩ := hv
  constructor
  · intro hfull
    refine ⟨write_spec_full rb b ⟨hs, hh, ht, hb⟩ hfull, ?_⟩
    unfold lockfree_write
    rw [if_pos hfull]
  · intro hnf
    unfold ring_buffer_write
    rw [if_neg (by omega), if_neg hnf]
    refine ⟨rfl, ?_, rfl, rfl, rfl, ?_, ?_, ?_⟩
    · exact copyInto_one_getD_self rb.buf rb.head b (by omega)
    · exact copyInto_one_take rb.buf rb.head b (by omega)
    · exact copyInto_one_drop rb.buf rb.head b (by omega)
    · unfold lockfree_write
      rw [if_neg hnf]

theorem claim_C4_write_one_witness :
    (ring_buffer_write ⟨[9, 9, 9], 3, 1, 0⟩ 5).2 = true ∧
    (ring_buffer_write ⟨[9, 9, 9], 3, 1, 0⟩ 5).1.buf.getD 1 0 = 5 :=
  ⟨((claim_C4_write_one ⟨[9, 9, 9], 3, 1, 0⟩ 5 (by decide)).2 (by decide)).1,
   ((claim_C4_write_one ⟨[9, 9, 9], 3, 1, 0⟩ 5 (by decide)).2 (by decide)).2.1⟩

/-- C5: with size ≥ 2 and head, tail in [0, size), every one of the nine
operations leaves the indices again in [0, size): proved on the result
state of the five mutating operations (write, read, write_multi,
read_multi, clear); the four queries (available, free_space, is_empty,
is_full) take the buffer through a const pointer, return only a value,
and leave the state — whose indices stay in range — untouched. -/
theorem claim_C5_indices_in_range (rb : RB) (b : Nat) (data : List Nat) (len : Nat)
    (hs : 2 ≤ rb.size) (hh : rb.head < rb.size) (ht : rb.tail < rb.size) :
    ((ring_buffer_write rb b).1.head < (ring_buffer_write rb b).1.size ∧
      (ring_buffer_write rb b).1.tail < (ring_buffer_write rb b).1.size) ∧
    ((ring_buffer_read rb).1.head < (ring_buffer_read rb).1.size ∧
      (ring_buffer_read rb).1.tail < (ring_buffer_read rb).1.size) ∧
    ((ring_buffer_write_multi rb data len).1.head
        < (ring_buffer_write_multi rb data len).1.size ∧
      (ring_buffer_write_multi rb data len).1.tail
        < (ring_buffer_write_multi rb data len).1.size) ∧
    ((ring_buffer_read_multi rb len).1.head
        < (ring_buffer_read_multi rb len).1.size ∧
      (ring_buffer_read_multi rb len).1.tail
        < (ring_buffer_read_multi rb len).1.size) ∧
    ((ring_buffer_clear rb).head < (ring_buffer_clear rb).size ∧
      (ring_buffer_clear rb).tail < (ring_buffer_clear rb).size) ∧
    (rb.head < rb.size ∧ rb.tail < rb.size) := by
  obtain ⟨B, s, h, t⟩ := rb
  simp only [RB.size_mk, RB.head_mk, RB.tail_mk] at hs hh ht
  have h1 := write_idx B s h t b hs hh ht
  have h2 := read_idx B s h t hs hh ht
  have h3 := write_multi_idx B s h t data len hs hh ht
  have h4 := read_multi_idx B s h t len hs hh ht
  refine ⟨⟨by rw [h1.1]; exact h1.2.1, by rw [h1.1]; exact h1.2.2⟩,
          ⟨by rw [h2.1]; exact h2.2.1, by rw [h2.1]; exact h2.2.2⟩,
          ⟨by rw [h3.1]; exact h3.2.1, by rw [h3.1]; exact h3.2.2⟩,
          ⟨by rw [h4.1]; exact h4.2.1, by rw [h4.1]; exact h4.2.2⟩,
          ⟨by show (0 : Nat) < s; omega, by show (0 : Nat) < s; omega⟩,
          hh, ht⟩

theorem claim_C5_indices_in_range_witness :
    (ring_buffer_write ⟨[0, 0, 0], 3, 2, 1⟩ 7).1.head
        < (ring_buffer_write ⟨[0, 0, 0], 3, 2, 1⟩ 7).1.size ∧
    (ring_buffer_write_multi ⟨[0, 0, 0], 3, 2, 1⟩ [1, 2] 2).1.head
        < (ring_buffer_write_multi ⟨[0, 0, 0], 3, 2, 1⟩ [1, 2] 2).1.size :=
  ⟨(claim_C5_indices_in_range ⟨[0, 0, 0], 3, 2, 1⟩ 7 [1, 2] 2
      (by decide) (by decide) (by decide)).1.1,
   (claim_C5_indices_in_range ⟨[0, 0, 0], 3, 2, 1⟩ 7 [1, 2] 2
      (by decide) (by decide) (by decide)).2.2.1.1⟩

/-- C6: under the data-model invariants, every (start, count) storage
region touched by the memcpy calls inside ring_buffer_write_multi,
ring_buffer_read_multi and lockfree_write_multi satisfies
start + count ≤ size, in the contiguous and in the two-segment wraparound
case alike: the bulk transfers never move past the storage bounds. -/
theorem claim_C6_copy_regions_in_bounds (rb : RB) (len : Nat)
    (hs : 2 ≤ rb.size) (hh : rb.head < rb.size) (ht : rb.tail < rb.size) :
    (∀ p ∈ writeMultiRegions rb len, p.1 + p.2 ≤ rb.size) ∧
    (∀ p ∈ readMultiRegions rb len, p.1 + p.2 ≤ rb.size) ∧
    (∀ p ∈ lockfreeWriteMultiRegions rb len, p.1 + p.2 ≤ rb.size) := by
  obtain ⟨B, s, h, t⟩ := rb
  simp only [RB.size_mk, RB.head_mk, RB.tail_mk] at hs hh ht ⊢
  exact ⟨writeMultiRegions_bound B s h t len hs hh ht,
         readMultiRegions_bound B s h t len hs hh ht,
         lockfreeWriteMultiRegions_bound B s h t len hs hh ht⟩

theorem claim_C6_copy_regions_in_bounds_witness :
    (2 : Nat) + 2 ≤ 4 :=
  (claim_C6_copy_regions_in_bounds ⟨[0, 0, 0, 0], 4, 2, 1⟩ 2
    (by decide) (by decide) (by decide)).1 (2, 2) (by decide)

/-- C7 counterexample: ring_buffer_clear resets head to 0, so on a buffer
with head = 1 the write index does change; this refutes the claim that
clear only sets read_index = write_index and leaves write_index unchanged. -/
theorem claim_C7_clear_cex :
    (ring_buffer_clear ⟨[10, 20, 30], 3, 1, 1⟩).head
      ≠ (RB.mk [10, 20, 30] 3 1 1).head := by decide

/-- C7 amended: lockfree_clear sets read index = write index and changes
nothing else; the core ring_buffer_clear instead resets both indices to 0;
in both cases size and the stored bytes are untouched (data is not wiped),
and immediately afterwards the buffer reports empty with occupancy 0. -/
theorem claim_C7_clear_effect (rb : RB) :
    (lockfree_clear rb).tail = rb.head ∧
    (lockfree_clear rb).head = rb.head ∧
    (lockfree_clear rb).buf = rb.buf ∧
    (lockfree_clear rb).size = rb.size ∧
    lockfree_is_empty (lockfree_clear rb) = true ∧
    lockfree_available (lockfree_clear rb) = 0 ∧
    (ring_buffer_clear rb).head = 0 ∧
    (ring_buffer_clear rb).tail = 0 ∧
    (ring_buffer_clear rb).buf = rb.buf ∧
    (ring_buffer_clear rb).size = rb.size ∧
    ring_buffer_is_empty (ring_buffer_clear rb) = true ∧
    ring_buffer_available (ring_buffer_clear rb) = 0 := by
  obtain ⟨B, s, h, t⟩ := rb
  refine ⟨rfl, rfl, rfl, rfl, ?_, ?_, rfl, rfl, rfl, rfl, ?_, ?_⟩
  · simp [lockfree_is_empty, lockfree_clear]
  · simp [lockfree_available, lockfree_clear]
  · simp [ring_buffer_is_empty, ring_buffer_clear]
  · unfold ring_buffer_available ring_buffer_clear
    simp

/-- C8 counterexample: a non-NULL buffer structure with size 1 (below the
minimum of 2) and head = 1, tail = 0 is reported non-empty, because
ring_buffer_is_empty checks only for a NULL pointer and not for an invalid
size; the claim that is_empty reports true on every invalid buffer fails. -/
theorem claim_C8_invalid_cex :
    ¬ (ring_buffer_is_empty_p (some ⟨[0], 1, 1, 0⟩) = true) := by decide

/-- C8 amended: for a NULL buffer pointer is_empty reports true and is_full
reports false; for a non-NULL structure with size below 2, is_full still
reports false, but is_empty performs no size check and reports simply
whether head = tail. -/
theorem claim_C8_invalid_query (rb : RB) (hsz : rb.size < 2) :
    ring_buffer_is_empty_p none = true ∧
    ring_buffer_is_full_p none = false ∧
    ring_buffer_is_full_p (some rb) = false ∧
    (ring_buffer_is_empty_p (some rb) = true ↔ rb.head = rb.tail) := by
  refine ⟨rfl, rfl, ?_, ?_⟩
  · simp [ring_buffer_is_full_p, ring_buffer_is_full, hsz]
  · simp [ring_buffer_is_empty_p, ring_buffer_is_empty]

theorem claim_C8_invalid_query_witness :
    ring_buffer_is_empty_p none = true ∧
    ring_buffer_is_full_p none = false ∧
    ring_buffer_is_full_p (some ⟨[0], 1, 0, 0⟩) = false ∧
    (ring_buffer_is_empty_p (some ⟨[0], 1, 0, 0⟩) = true ↔ (0 : Nat) = 0) :=
  claim_C8_invalid_query ⟨[0], 1, 0, 0⟩ (by decide)

/-- C9: construction with a NULL storage pointer, a capacity of 0 or 1, or
an unregistered custom strategy tag fails and leaves no operable buffer;
on success the indices are reset to zero. -/
theorem claim_C9_construction (storage : Option (List Nat)) (size : Nat)
    (ty : ring_buffer_type_t) (registry : List Nat) (lk : Bool) (n : Nat) :
    ring_buffer_create none size ty registry lk = none ∧
    ring_buffer_create storage 0 ty registry lk = none ∧
    ring_buffer_create storage 1 ty registry lk = none ∧
    (n ∉ registry →
      ring_buffer_create storage size (.custom n) registry lk = none) ∧
    (∀ r, ring_buffer_create storage size ty registry lk = some r →
      r.rb.head = 0 ∧ r.rb.tail = 0) := by
  refine ⟨rfl, ?_, ?_, ?_, ?_⟩
  · cases storage <;> simp [ring_buffer_create, ring_buffer_init]
  · cases storage <;> simp [ring_buffer_create, ring_buffer_init]
  · intro hreg
    cases storage with
    | none => rfl
    | some buf =>
      by_cases hsz : size < 2
      · simp [ring_buffer_create, ring_buffer_init, hsz]
      · simp [ring_buffer_create, ring_buffer_init, hsz, hreg]
  · intro r hr
    cases storage with
    | none => cases hr
    | some buf =>
      by_cases hsz : size < 2
      · simp [ring_buffer_create, ring_buffer_init, hsz] at hr
      · cases ty with
        | lockfree =>
          simp [ring_buffer_create, ring_buffer_init, hsz] at hr
          rw [← hr]
          exact ⟨rfl, rfl⟩
        | disable_irq =>
          simp [ring_buffer_create, ring_buffer_init, hsz] at hr
          rw [← hr]
          exact ⟨rfl, rfl⟩
        | mutex =>
          by_cases hlk : lk = true
          · simp [ring_buffer_create, ring_buffer_init, hsz, hlk] at hr
            rw [← hr]
            exact ⟨rfl, rfl⟩
          · simp [ring_buffer_create, ring_buffer_init, hsz, hlk] at hr
        | custom m =>
          by_cases hm : m ∈ registry
          · simp [ring_buffer_create, ring_buffer_init, hsz, hm] at hr
            rw [← hr]
            exact ⟨rfl, rfl⟩
          · simp [ring_buffer_create, ring_buffer_init, hsz, hm] at hr

theorem claim_C9_construction_witness :
    ring_buffer_create (some [0, 0, 0, 0]) 4 (.custom 7) [] true = none ∧
    ((⟨⟨[0, 0, 0, 0], 4, 0, 0⟩, none⟩ : CreatedRB).rb.head = 0 ∧
     (⟨⟨[0, 0, 0, 0], 4, 0, 0⟩, none⟩ : CreatedRB).rb.tail = 0) :=
  ⟨(claim_C9_construction (some [0, 0, 0, 0]) 4 (.custom 7) [] true 7).2.2.2.1
      (by decide),
   (claim_C9_construction (some [0, 0, 0, 0]) 4 .lockfree [] true 7).2.2.2.2
      ⟨⟨[0, 0, 0, 0], 4, 0, 0⟩, none⟩ (by decide)⟩

/-- C10: every mutex-table operation invoked on a buffer whose lock handle
is NULL returns the nothing-happened result (false / 0 / empty / true for
is_empty / false for is_full / no-op for clear) and leaves the buffer state
unchanged. -/
theorem claim_C10_mutex_null_lock (m : MRB) (b : Nat) (data : List Nat) (len : Nat)
    (hl : m.lock = none) :
    mutex_write m b = (m, false) ∧
    mutex_read m = (m, none) ∧
    (len ≠ 0 → mutex_write_multi m data len = (m, 0)) ∧
    (len ≠ 0 → mutex_read_multi m len = (m, [])) ∧
    mutex_write_multi m data 0 = (m, 0) ∧
    mutex_read_multi m 0 = (m, []) ∧
    mutex_available m = 0 ∧
    mutex_free_space m = 0 ∧
    mutex_is_empty m = true ∧
    mutex_is_full m = false ∧
    mutex_clear m = m := by
  obtain ⟨rb, lock⟩ := m
  simp only at hl
  subst hl
  refine ⟨rfl, rfl, ?_, ?_, rfl, rfl, rfl, rfl, rfl, rfl, rfl⟩
  · intro hlen
    unfold mutex_write_multi
    rw [if_neg hlen]
  · intro hlen
    unfold mutex_read_multi
    rw [if_neg hlen]

theorem claim_C10_mutex_null_lock_witness :
    mutex_write ⟨⟨[0, 0], 2, 0, 0⟩, none⟩ 1 = (⟨⟨[0, 0], 2, 0, 0⟩, none⟩, false) ∧
    mutex_write_multi ⟨⟨[0, 0], 2, 0, 0⟩, none⟩ [1] 1 = (⟨⟨[0, 0], 2, 0, 0⟩, none⟩, 0) :=
  ⟨(claim_C10_mutex_null_lock ⟨⟨[0, 0], 2, 0, 0⟩, none⟩ 1 [1] 1 rfl).1,
   (claim_C10_mutex_null_lock ⟨⟨[0, 0], 2, 0, 0⟩, none⟩ 1 [1] 1 rfl).2.2.1
      (by decide)⟩

end RingBuff
